import Mathlib

/-!
# Verification of the cxxheaderparser parser-to-visitor event protocol

The repository's `src/` tree contains `cxxheaderparser/visitor.py`: the
`CxxVisitor` protocol through which the parser reports every recognized
construct.  The parser itself, the block-state stack (`parserstate.py`) and
the declaration value types (`types.py`) are not part of the staged sources;
they are modelled here from the design specification, faithful to its words:
a single left-to-right pass over a token stream that maintains a LIFO stack
of block frames (Empty | Extern | Namespace | Class), emits one `*_start`
notification when a frame is pushed and one `*_end` notification carrying the
about-to-be-popped frame, splits multi-declarator typedef statements into one
`on_typedef` event per declarator, emits trailing instance declarators of an
anonymous compound type as `on_variable` events after `on_class_end`, treats
`Name::fn` outside a class body as a method implementation, keeps `extern "C"`
frames transparent to qualified naming, and rejects mismatched block nesting
with an UnbalancedBlockError.
-/

namespace CxxHeaderParser

/-- Modelled from the spec: the compound-type keyword of a class frame
("whether the class is a struct/class/union"); `types.py` is not staged. -/
inductive ClassKey
  | structKey
  | classKey
  | unionKey
deriving DecidableEq, Repr

/-- Modelled from the spec: the access specifier in effect inside a class
body (public/protected/private). -/
inductive Access
  | publicAcc
  | protectedAcc
  | privateAcc
deriving DecidableEq, Repr

/-- Modelled from the spec's glossary: a declarator is "the name-plus-modifiers
part of a declaration (e.g. `*PT` in `int *PT`), distinct from the shared base
type".  `stars` counts the pointer modifiers, giving the declarator its shape. -/
structure Declarator where
  name : String
  stars : Nat
deriving DecidableEq, Repr

/-- Modelled from the spec: the underlying type a declaration refers to —
either a primitive/named type or the compound type of a class/struct/union
(anonymous when its name is `none`). -/
inductive BaseType
  | prim (name : String)
  | compound (key : ClassKey) (name : Option String)
deriving DecidableEq, Repr

/-- Modelled from the spec: the `Function` declaration value type. -/
structure Function where
  name : String
deriving DecidableEq, Repr

/-- Modelled from the spec: the `Method` declaration value type; `quals` is
the explicit qualifier path written before `::` in an out-of-class method
implementation (empty for an in-class method). -/
structure Method where
  quals : List String
  name : String
deriving DecidableEq, Repr

/-- Modelled from the spec: the `Variable` declaration value type. -/
structure Variable where
  type : BaseType
  decl : Declarator
deriving DecidableEq, Repr

/-- Modelled from the spec: the `Typedef` declaration value type — one alias
introduced by a typedef statement: the shared underlying type plus this
alias's own declarator. -/
structure Typedef where
  type : BaseType
  decl : Declarator
deriving DecidableEq, Repr

/-- Modelled from the spec: the `Field` declaration value type, carrying the
access level in effect where the field was declared. -/
structure Field where
  type : BaseType
  decl : Declarator
  access : Access
deriving DecidableEq, Repr

/-- Modelled from the spec: the `NamespaceAlias` value type
(`namespace A = B::C;`). -/
structure NamespaceAlias where
  aliasName : String
  names : List String
deriving DecidableEq, Repr

/-- Modelled from the spec: the `UsingAlias` value type (`using foo = int;`). -/
structure UsingAlias where
  aliasName : String
  type : BaseType
deriving DecidableEq, Repr

/-- Modelled from the spec: the `UsingDecl` value type (`using NS::Name;`). -/
structure UsingDecl where
  names : List String
deriving DecidableEq, Repr

/-- The four block kinds of the spec's BlockState: "a kind tag
(Namespace | Class | Extern | Empty)". -/
inductive BlockKind
  | emptyKind
  | externKind
  | namespaceKind
  | classKind
deriving DecidableEq, Repr

/-- Modelled from the spec: a BlockState stack frame — one open lexical
scope.  Every frame stores its qualified name path; a class frame also
stores its compound-type keyword, current access specifier and whether the
class appeared under a `typedef` keyword.  This models `parserstate.py`'s
`EmptyBlockState`, `ExternBlockState`, `NamespaceBlockState` and
`ClassBlockState`, which are not staged. -/
inductive Frame
  | emptyBlock (path : List String)
  | externLinkage (path : List String)
  | namespaceBlock (name : String) (path : List String)
  | classBlock (key : ClassKey) (name : Option String) (path : List String)
      (access : Access) (inTypedef : Bool)
deriving DecidableEq, Repr

/-- The kind tag of a frame. -/
def Frame.kind : Frame → BlockKind
  | .emptyBlock _ => .emptyKind
  | .externLinkage _ => .externKind
  | .namespaceBlock _ _ => .namespaceKind
  | .classBlock _ _ _ _ _ => .classKind

/-- The qualified name path stored in a frame. -/
def Frame.path : Frame → List String
  | .emptyBlock p => p
  | .externLinkage p => p
  | .namespaceBlock _ p => p
  | .classBlock _ _ p _ _ => p

/-- The frame's own name component: a namespace's name, a class's optional
name, and nothing for empty and extern blocks (the spec: "empty for
anonymous/unnamed constructs"). -/
def Frame.ownName : Frame → Option String
  | .emptyBlock _ => none
  | .externLinkage _ => none
  | .namespaceBlock n _ => some n
  | .classBlock _ n _ _ _ => n

/-- Whether the frame is a class frame. -/
def Frame.isClass : Frame → Bool
  | .classBlock _ _ _ _ _ => true
  | _ => false

/-- The qualified name path of the current stack (the top frame's path;
empty at top level). -/
def pathOf : List Frame → List String
  | [] => []
  | f :: _ => f.path

/-- Modelled from the spec: "struct/union default public, class defaults
private" — the default access specifier on class-frame creation. -/
def defaultAccess : ClassKey → Access
  | .classKey => .privateAcc
  | _ => .publicAcc

/-- Modelled from the spec: the token stream handed to the parser by the
external lexer, pre-grouped into the recognized declaration forms.  A
`closeBlock` carries the trailing instance declarators written between the
closing `}` and the `;` (empty for a plain `}`).  The bodies of function and
method definitions are consumed by the lexer-side grouping, so a `fnDecl`
token covers both `void f();` and `Foo::bar() { }`. -/
inductive Tok
  | openEmpty
  | openExternC
  | openNamespace (name : String)
  | openClass (key : ClassKey) (name : Option String) (inTypedef : Bool)
  | closeBlock (trailing : List Declarator)
  | typedefStmt (type : BaseType) (decls : List Declarator)
  | declStmt (type : BaseType) (decl : Declarator)
  | fnDecl (quals : List String) (name : String)
  | namespaceAliasStmt (a : NamespaceAlias)
  | usingNamespaceStmt (ns : List String)
  | usingAliasStmt (u : UsingAlias)
  | usingDeclStmt (u : UsingDecl)
  | enumStmt (name : String)
  | forwardDeclStmt (name : String)
  | templateInstStmt (name : String)
  | defineDirective (content : String)
  | pragmaDirective (content : String)
  | includeDirective (filename : String)
deriving DecidableEq, Repr

/-- One notification of the `CxxVisitor` protocol, as recorded in the event
trace.  Block lifecycle events carry the frame; declaration events carry the
qualified name path of the state they were emitted in plus the declaration
value object, mirroring `visitor.py`'s `(state, value)` callback signatures. -/
inductive Event
  | emptyBlockStart (f : Frame)
  | emptyBlockEnd (f : Frame)
  | externBlockStart (f : Frame)
  | externBlockEnd (f : Frame)
  | namespaceStart (f : Frame)
  | namespaceEnd (f : Frame)
  | classStart (f : Frame)
  | classEnd (f : Frame)
  | classField (f : Frame) (fld : Field)
  | classMethod (f : Frame) (m : Method)
  | functionEv (path : List String) (fn : Function)
  | methodImplEv (path : List String) (m : Method)
  | variableEv (path : List String) (v : Variable)
  | typedefEv (path : List String) (t : Typedef)
  | namespaceAliasEv (path : List String) (a : NamespaceAlias)
  | usingNamespaceEv (path : List String) (ns : List String)
  | usingAliasEv (path : List String) (u : UsingAlias)
  | usingDeclarationEv (path : List String) (u : UsingDecl)
  | enumEv (path : List String) (name : String)
  | forwardDeclEv (path : List String) (name : String)
  | templateInstEv (path : List String) (name : String)
  | defineEv (path : List String) (content : String)
  | pragmaEv (path : List String) (content : String)
  | includeEv (path : List String) (filename : String)
deriving DecidableEq, Repr

/-- The `*_start` notification for a freshly pushed frame. -/
def startEv (f : Frame) : Event :=
  match f with
  | .emptyBlock _ => .emptyBlockStart f
  | .externLinkage _ => .externBlockStart f
  | .namespaceBlock _ _ => .namespaceStart f
  | .classBlock _ _ _ _ _ => .classStart f

/-- The `*_end` notification for an about-to-be-popped frame. -/
def endEv (f : Frame) : Event :=
  match f with
  | .emptyBlock _ => .emptyBlockEnd f
  | .externLinkage _ => .externBlockEnd f
  | .namespaceBlock _ _ => .namespaceEnd f
  | .classBlock _ _ _ _ _ => .classEnd f

/-- Modelled from the spec: the parser's persistent context — the block-state
stack (top frame first) together with the trace of notifications emitted so
far, in emission order. -/
structure PState where
  stack : List Frame
  events : List Event
deriving DecidableEq, Repr

/-- Modelled from the spec's error taxonomy: `malformedDecl` stands for
SyntaxError (a token sequence matching no known declaration grammar) and
`unbalancedBlock` for UnbalancedBlockError (a closing token with no open
matching frame, or unconsumed open frames at end of input). -/
inductive PError
  | malformedDecl
  | unbalancedBlock
deriving DecidableEq, Repr

/-- Append notifications to the trace without touching the stack. -/
def emit (s : PState) (es : List Event) : PState :=
  { s with events := s.events ++ es }

/-- Push a frame and emit its `*_start` notification. -/
def pushFrame (s : PState) (f : Frame) : PState :=
  { stack := f :: s.stack, events := s.events ++ [startEv f] }

/-- The events for the trailing instance declarators of a class statement
`struct ... { } d1, d2;`: one `on_variable` per declarator carrying the
compound type — or, when the class appeared under `typedef`, one `on_typedef`
per declarator carrying the compound type as the typedef's underlying type.
They are emitted in the enclosing scope (`outer`), after `on_class_end`. -/
def trailingEvents (outer : List Frame) (key : ClassKey) (name : Option String)
    (inTypedef : Bool) (ds : List Declarator) : List Event :=
  ds.map fun d =>
    if inTypedef then
      Event.typedefEv (pathOf outer) ⟨BaseType.compound key name, d⟩
    else
      Event.variableEv (pathOf outer) ⟨BaseType.compound key name, d⟩

/-- Modelled from the spec: one transition of the parser's dispatch engine.
Opening tokens push a frame whose path extends the parent's path by the
frame's own name (empty for empty/extern/anonymous frames) and emit the
`*_start` notification; a `closeBlock` emits the `*_end` notification for the
top frame (then the trailing-declarator events, for a class) and pops it,
failing with `unbalancedBlock` when the stack is empty and with
`malformedDecl` when trailing declarators follow a non-class block; statement
tokens emit their notifications and leave the stack alone, dispatching on the
top frame: declarations inside a class body become field/method events, a
qualified function definition outside a class body becomes `on_method_impl`,
and a multi-declarator typedef fans out into one `on_typedef` per declarator. -/
def step (s : PState) (t : Tok) : Except (PError × PState) PState :=
  match t with
  | .openEmpty => .ok (pushFrame s (.emptyBlock (pathOf s.stack)))
  | .openExternC => .ok (pushFrame s (.externLinkage (pathOf s.stack)))
  | .openNamespace n =>
      .ok (pushFrame s (.namespaceBlock n (pathOf s.stack ++ [n])))
  | .openClass key name inTd =>
      .ok (pushFrame s
        (.classBlock key name (pathOf s.stack ++ name.toList)
          (defaultAccess key) inTd))
  | .closeBlock ds =>
      match s.stack with
      | [] => .error (.unbalancedBlock, s)
      | f :: rest =>
        match f with
        | .classBlock key name _ _ inTd =>
            .ok { stack := rest,
                  events := s.events ++
                    (endEv f :: trailingEvents rest key name inTd ds) }
        | _ =>
            if ds.isEmpty then
              .ok { stack := rest, events := s.events ++ [endEv f] }
            else
              .error (.malformedDecl, s)
  | .typedefStmt ty ds =>
      .ok (emit s (ds.map fun d => .typedefEv (pathOf s.stack) ⟨ty, d⟩))
  | .declStmt ty d =>
      match s.stack with
      | (Frame.classBlock key name p acc inTd) :: _ =>
          .ok (emit s
            [.classField (.classBlock key name p acc inTd) ⟨ty, d, acc⟩])
      | _ => .ok (emit s [.variableEv (pathOf s.stack) ⟨ty, d⟩])
  | .fnDecl quals n =>
      match s.stack with
      | (Frame.classBlock key name p acc inTd) :: _ =>
          .ok (emit s
            [.classMethod (.classBlock key name p acc inTd) ⟨quals, n⟩])
      | _ =>
          if quals.isEmpty then
            .ok (emit s [.functionEv (pathOf s.stack) ⟨n⟩])
          else
            .ok (emit s [.methodImplEv (pathOf s.stack) ⟨quals, n⟩])
  | .namespaceAliasStmt a =>
      .ok (emit s [.namespaceAliasEv (pathOf s.stack) a])
  | .usingNamespaceStmt ns =>
      .ok (emit s [.usingNamespaceEv (pathOf s.stack) ns])
  | .usingAliasStmt u => .ok (emit s [.usingAliasEv (pathOf s.stack) u])
  | .usingDeclStmt u => .ok (emit s [.usingDeclarationEv (pathOf s.stack) u])
  | .enumStmt n => .ok (emit s [.enumEv (pathOf s.stack) n])
  | .forwardDeclStmt n => .ok (emit s [.forwardDeclEv (pathOf s.stack) n])
  | .templateInstStmt n => .ok (emit s [.templateInstEv (pathOf s.stack) n])
  | .defineDirective c => .ok (emit s [.defineEv (pathOf s.stack) c])
  | .pragmaDirective c => .ok (emit s [.pragmaEv (pathOf s.stack) c])
  | .includeDirective fn => .ok (emit s [.includeEv (pathOf s.stack) fn])

/-- Fold `step` over the token stream; the first error aborts the pass,
keeping the state reached before the failing token (no partial-declaration
recovery, no best-effort continuation). -/
def foldToks : PState → List Tok → PState × Option PError
  | s, [] => (s, none)
  | s, t :: ts =>
    match step s t with
    | .ok s' => foldToks s' ts
    | .error (e, _) => (s, some e)

/-- The parser's initial state: empty stack, empty trace. -/
def initState : PState := ⟨[], []⟩

/-- Modelled from the spec: a complete parse — fold the token stream from the
initial state and, at end of input, fail with UnbalancedBlockError when open
frames remain unconsumed. -/
def run (toks : List Tok) : PState × Option PError :=
  match foldToks initState toks with
  | (s, some e) => (s, some e)
  | (s, none) => (s, if s.stack.isEmpty then none else some .unbalancedBlock)

/-- The frame a `*_start` notification opens, when the event is one. -/
def isStart : Event → Option Frame
  | .emptyBlockStart f => some f
  | .externBlockStart f => some f
  | .namespaceStart f => some f
  | .classStart f => some f
  | _ => none

/-- The frame a `*_end` notification closes, when the event is one. -/
def isEnd : Event → Option Frame
  | .emptyBlockEnd f => some f
  | .externBlockEnd f => some f
  | .namespaceEnd f => some f
  | .classEnd f => some f
  | _ => none

/-- Replay an event trace against a stack of currently open frames: a
`*_start` pushes its frame, a `*_end` must close exactly the top frame, and
every other notification leaves the open frames alone.  `none` marks a trace
that is not well nested. -/
def replay : List Frame → List Event → Option (List Frame)
  | stk, [] => some stk
  | stk, e :: es =>
    match isStart e, isEnd e with
    | some f, _ => replay (f :: stk) es
    | none, some f =>
      match stk with
      | [] => none
      | g :: rest => if g = f then replay rest es else none
    | none, none => replay stk es

/-- A trace is well nested when replaying it from no open frames closes every
frame it opens, each `*_end` matching the exact frame pushed at the
corresponding `*_start`, in strict LIFO order. -/
def wellNested (es : List Event) : Prop := replay [] es = some []

/-- The number of `*_start` notifications of one block kind in a trace. -/
def startCount (k : BlockKind) (es : List Event) : Nat :=
  (es.filter fun e =>
    match isStart e with
    | some f => decide (f.kind = k)
    | none => false).length

/-- The number of `*_end` notifications of one block kind in a trace. -/
def endCount (k : BlockKind) (es : List Event) : Nat :=
  (es.filter fun e =>
    match isEnd e with
    | some f => decide (f.kind = k)
    | none => false).length

/-- The number of frames of one kind on a stack. -/
def countKind (k : BlockKind) (stk : List Frame) : Nat :=
  (stk.filter fun f => decide (f.kind = k)).length

/-- The spec's path invariant on a stack: every frame's qualified name path
is its parent frame's path (the path of the stack below it) extended by the
frame's own name component. -/
def wfStack : List Frame → Prop
  | [] => True
  | f :: rest => f.path = pathOf rest ++ (Frame.ownName f).toList ∧ wfStack rest

/-- Whether a token opens a block (pushes a frame). -/
def isOpenTok : Tok → Bool
  | .openEmpty => true
  | .openExternC => true
  | .openNamespace _ => true
  | .openClass _ _ _ => true
  | _ => false

/-- Whether a token closes a block (pops a frame). -/
def isCloseTok : Tok → Bool
  | .closeBlock _ => true
  | _ => false

/-- The brace-nesting depth discipline of a token stream, started at `n` open
blocks: `none` once a closing token appears at depth zero, otherwise the
depth left at end of input. -/
def depthAux : Nat → List Tok → Option Nat
  | n, [] => some n
  | n, t :: ts =>
    if isOpenTok t then depthAux (n + 1) ts
    else if isCloseTok t then
      match n with
      | 0 => none
      | m + 1 => depthAux m ts
    else depthAux n ts

/-- A token stream has matched brace nesting: no closing token without an
open block, and no block left open at end of input. -/
def balancedToks (ts : List Tok) : Prop := depthAux 0 ts = some 0

instance (ts : List Tok) : Decidable (balancedToks ts) := by
  unfold balancedToks
  infer_instance

/-- `typedef int T, *PT;` as the lexer hands it to the parser. -/
def typedefExample : List Tok :=
  [.typedefStmt (.prim "int") [⟨"T", 0⟩, ⟨"PT", 1⟩]]

/-- `struct { int x; } a, b;` as the lexer hands it to the parser. -/
def anonStructExample : List Tok :=
  [.openClass .structKey none false, .declStmt (.prim "int") ⟨"x", 0⟩,
   .closeBlock [⟨"a", 0⟩, ⟨"b", 0⟩]]

/-- `namespace A { namespace B { void f(); } }` as the lexer hands it to the
parser. -/
def nestedNamespaceExample : List Tok :=
  [.openNamespace "A", .openNamespace "B", .fnDecl [] "f",
   .closeBlock [], .closeBlock []]

/-- `namespace A { extern "C" { void f(); } }` as the lexer hands it to the
parser. -/
def externExample : List Tok :=
  [.openNamespace "A", .openExternC, .fnDecl [] "f",
   .closeBlock [], .closeBlock []]

/-- `typedef struct { } X;` as the lexer hands it to the parser. -/
def typedefStructExample : List Tok :=
  [.openClass .structKey none true, .closeBlock [⟨"X", 0⟩]]

/-- The start notification of a frame opens exactly that frame. -/
theorem isStart_startEv (f : Frame) : isStart (startEv f) = some f := by
  cases f <;> rfl

/-- The start notification of a frame is no end notification. -/
theorem isEnd_startEv (f : Frame) : isEnd (startEv f) = none := by
  cases f <;> rfl

/-- The end notification of a frame is no start notification. -/
theorem isStart_endEv (f : Frame) : isStart (endEv f) = none := by
  cases f <;> rfl

/-- The end notification of a frame closes exactly that frame. -/
theorem isEnd_endEv (f : Frame) : isEnd (endEv f) = some f := by
  cases f <;> rfl

/-- A start notification is never also an end notification. -/
theorem isEnd_of_isStart {e : Event} {f : Frame} (h : isStart e = some f) :
    isEnd e = none := by
  cases e <;> simp_all [isStart, isEnd]

/-- Replaying a concatenated trace replays the pieces in order. -/
theorem replay_append (es es' : List Event) (stk : List Frame) :
    replay stk (es ++ es') = (replay stk es).bind fun s2 => replay s2 es' := by
  induction es generalizing stk with
  | nil => rfl
  | cons e es ih =>
    cases hs : isStart e with
    | some f =>
      simpa [replay, hs] using ih (f :: stk)
    | none =>
      cases he : isEnd e with
      | some f =>
        cases stk with
        | nil => simp [replay, hs, he]
        | cons g rest =>
          by_cases hg : g = f
          · simpa [replay, hs, he, hg] using ih rest
          · simp [replay, hs, he, hg]
      | none => simpa [replay, hs, he] using ih stk

/-- Notifications that open and close nothing leave the replay stack alone. -/
theorem replay_neutral (es : List Event) (stk : List Frame)
    (h : ∀ e ∈ es, isStart e = none ∧ isEnd e = none) :
    replay stk es = some stk := by
  induction es with
  | nil => rfl
  | cons e es ih =>
    have he := h e (List.mem_cons_self e es)
    have hrest : ∀ x ∈ es, isStart x = none ∧ isEnd x = none :=
      fun x hx => h x (List.mem_cons_of_mem e hx)
    simp [replay, he.1, he.2, ih hrest]

/-- Trailing-declarator events open and close no block. -/
theorem trailingEvents_neutral (outer : List Frame) (key : ClassKey)
    (name : Option String) (inTd : Bool) (ds : List Declarator) :
    ∀ e ∈ trailingEvents outer key name inTd ds,
      isStart e = none ∧ isEnd e = none := by
  intro e he
  simp only [trailingEvents, List.mem_map] at he
  obtain ⟨d, -, rfl⟩ := he
  cases inTd <;> simp [isStart, isEnd]

/-- Typedef fan-out events open and close no block. -/
theorem typedefEvents_neutral (p : List String) (ty : BaseType)
    (ds : List Declarator) :
    ∀ e ∈ ds.map fun d => Event.typedefEv p ⟨ty, d⟩,
      isStart e = none ∧ isEnd e = none := by
  intro e he
  simp only [List.mem_map] at he
  obtain ⟨d, -, rfl⟩ := he
  simp [isStart, isEnd]

/-- A closing token is not an opening token. -/
theorem isOpenTok_of_isCloseTok {t : Tok} (h : isCloseTok t = true) :
    isOpenTok t = false := by
  cases t <;> simp_all [isOpenTok, isCloseTok]

/-- Every transition of the dispatch engine has one of five shapes: it pushes
one frame and emits exactly its `*_start` notification (the pushed frame's
path extending the parent path by its own name); it fails on a closing token
with an empty stack; it pops the top frame, emitting its `*_end` notification
first and then only block-neutral notifications; it fails on an
unclassifiable declaration leaving the state untouched; or it emits only
block-neutral notifications and leaves the stack alone. -/
theorem step_spec (s : PState) (t : Tok) :
    (∃ f, step s t = .ok ⟨f :: s.stack, s.events ++ [startEv f]⟩ ∧
      f.path = pathOf s.stack ++ (Frame.ownName f).toList ∧ isOpenTok t = true) ∨
    (s.stack = [] ∧ step s t = .error (.unbalancedBlock, s) ∧
      isCloseTok t = true) ∨
    (∃ f rest es, s.stack = f :: rest ∧
      step s t = .ok ⟨rest, s.events ++ (endEv f :: es)⟩ ∧
      (∀ e ∈ es, isStart e = none ∧ isEnd e = none) ∧ isCloseTok t = true) ∨
    (step s t = .error (.malformedDecl, s) ∧ isCloseTok t = true) ∨
    (∃ es, step s t = .ok ⟨s.stack, s.events ++ es⟩ ∧
      (∀ e ∈ es, isStart e = none ∧ isEnd e = none) ∧
      isOpenTok t = false ∧ isCloseTok t = false) := by
  cases t with
  | openEmpty =>
    exact Or.inl ⟨.emptyBlock (pathOf s.stack), rfl,
      by simp [Frame.path, Frame.ownName], rfl⟩
  | openExternC =>
    exact Or.inl ⟨.externLinkage (pathOf s.stack), rfl,
      by simp [Frame.path, Frame.ownName], rfl⟩
  | openNamespace n =>
    exact Or.inl ⟨.namespaceBlock n (pathOf s.stack ++ [n]), rfl,
      by simp [Frame.path, Frame.ownName], rfl⟩
  | openClass key name inTd =>
    exact Or.inl ⟨.classBlock key name (pathOf s.stack ++ name.toList)
      (defaultAccess key) inTd, rfl, by simp [Frame.path, Frame.ownName], rfl⟩
  | closeBlock ds =>
    cases hstk : s.stack with
    | nil =>
      exact Or.inr (Or.inl ⟨rfl, by simp [step, hstk], rfl⟩)
    | cons f rest =>
      cases f with
      | classBlock key name p acc inTd =>
        refine Or.inr (Or.inr (Or.inl ⟨_, rest,
          trailingEvents rest key name inTd ds, rfl, ?_,
          trailingEvents_neutral rest key name inTd ds, rfl⟩))
        simp [step, hstk, endEv]
      | emptyBlock p =>
        by_cases hds : ds.isEmpty
        · exact Or.inr (Or.inr (Or.inl ⟨_, rest, [], rfl,
            by simp [step, hstk, hds, endEv], by simp, rfl⟩))
        · exact Or.inr (Or.inr (Or.inr (Or.inl
            ⟨by simp [step, hstk, hds], rfl⟩)))
      | externLinkage p =>
        by_cases hds : ds.isEmpty
        · exact Or.inr (Or.inr (Or.inl ⟨_, rest, [], rfl,
            by simp [step, hstk, hds, endEv], by simp, rfl⟩))
        · exact Or.inr (Or.inr (Or.inr (Or.inl
            ⟨by simp [step, hstk, hds], rfl⟩)))
      | namespaceBlock n p =>
        by_cases hds : ds.isEmpty
        · exact Or.inr (Or.inr (Or.inl ⟨_, rest, [], rfl,
            by simp [step, hstk, hds, endEv], by simp, rfl⟩))
        · exact Or.inr (Or.inr (Or.inr (Or.inl
            ⟨by simp [step, hstk, hds], rfl⟩)))
  | typedefStmt ty ds =>
    exact Or.inr (Or.inr (Or.inr (Or.inr
      ⟨ds.map fun d => Event.typedefEv (pathOf s.stack) ⟨ty, d⟩, rfl,
        typedefEvents_neutral (pathOf s.stack) ty ds, rfl, rfl⟩)))
  | declStmt ty d =>
    refine Or.inr (Or.inr (Or.inr (Or.inr ?_)))
    cases hstk : s.stack with
    | nil =>
      exact ⟨[.variableEv (pathOf s.stack) ⟨ty, d⟩],
        by simp [step, hstk, emit], by simp [isStart, isEnd], rfl, rfl⟩
    | cons f rest =>
      cases f with
      | classBlock key name p acc inTd =>
        exact ⟨[.classField (.classBlock key name p acc inTd) ⟨ty, d, acc⟩],
          by simp [step, hstk, emit], by simp [isStart, isEnd], rfl, rfl⟩
      | emptyBlock p =>
        exact ⟨[.variableEv (pathOf s.stack) ⟨ty, d⟩],
          by simp [step, hstk, emit], by simp [isStart, isEnd], rfl, rfl⟩
      | externLinkage p =>
        exact ⟨[.variableEv (pathOf s.stack) ⟨ty, d⟩],
          by simp [step, hstk, emit], by simp [isStart, isEnd], rfl, rfl⟩
      | namespaceBlock n p =>
        exact ⟨[.variableEv (pathOf s.stack) ⟨ty, d⟩],
          by simp [step, hstk, emit], by simp [isStart, isEnd], rfl, rfl⟩
  | fnDecl quals n =>
    refine Or.inr (Or.inr (Or.inr (Or.inr ?_)))
    have hfn : ∀ es0, emit s es0 = PState.mk s.stack (s.events ++ es0) :=
      fun es0 => rfl
    cases hstk : s.stack with
    | nil =>
      by_cases hq : quals.isEmpty
      · exact ⟨[.functionEv (pathOf s.stack) ⟨n⟩],
          by simp [step, hstk, hq, emit], by simp [isStart, isEnd], rfl, rfl⟩
      · exact ⟨[.methodImplEv (pathOf s.stack) ⟨quals, n⟩],
          by simp [step, hstk, hq, emit], by simp [isStart, isEnd], rfl, rfl⟩
    | cons f rest =>
      cases f with
      | classBlock key name p acc inTd =>
        exact ⟨[.classMethod (.classBlock key name p acc inTd) ⟨quals, n⟩],
          by simp [step, hstk, emit], by simp [isStart, isEnd], rfl, rfl⟩
      | emptyBlock p =>
        by_cases hq : quals.isEmpty
        · exact ⟨[.functionEv (pathOf s.stack) ⟨n⟩],
            by simp [step, hstk, hq, emit], by simp [isStart, isEnd], rfl, rfl⟩
        · exact ⟨[.methodImplEv (pathOf s.stack) ⟨quals, n⟩],
            by simp [step, hstk, hq, emit], by simp [isStart, isEnd], rfl, rfl⟩
      | externLinkage p =>
        by_cases hq : quals.isEmpty
        · exact ⟨[.functionEv (pathOf s.stack) ⟨n⟩],
            by simp [step, hstk, hq, emit], by simp [isStart, isEnd], rfl, rfl⟩
        · exact ⟨[.methodImplEv (pathOf s.stack) ⟨quals, n⟩],
            by simp [step, hstk, hq, emit], by simp [isStart, isEnd], rfl, rfl⟩
      | namespaceBlock nm p =>
        by_cases hq : quals.isEmpty
        · exact ⟨[.functionEv (pathOf s.stack) ⟨n⟩],
            by simp [step, hstk, hq, emit], by simp [isStart, isEnd], rfl, rfl⟩
        · exact ⟨[.methodImplEv (pathOf s.stack) ⟨quals, n⟩],
            by simp [step, hstk, hq, emit], by simp [isStart, isEnd], rfl, rfl⟩
  | namespaceAliasStmt a =>
    exact Or.inr (Or.inr (Or.inr (Or.inr
      ⟨[.namespaceAliasEv (pathOf s.stack) a], rfl,
        by simp [isStart, isEnd], rfl, rfl⟩)))
  | usingNamespaceStmt ns =>
    exact Or.inr (Or.inr (Or.inr (Or.inr
      ⟨[.usingNamespaceEv (pathOf s.stack) ns], rfl,
        by simp [isStart, isEnd], rfl, rfl⟩)))
  | usingAliasStmt u =>
    exact Or.inr (Or.inr (Or.inr (Or.inr
      ⟨[.usingAliasEv (pathOf s.stack) u], rfl,
        by simp [isStart, isEnd], rfl, rfl⟩)))
  | usingDeclStmt u =>
    exact Or.inr (Or.inr (Or.inr (Or.inr
      ⟨[.usingDeclarationEv (pathOf s.stack) u], rfl,
        by simp [isStart, isEnd], rfl, rfl⟩)))
  | enumStmt n =>
    exact Or.inr (Or.inr (Or.inr (Or.inr
      ⟨[.enumEv (pathOf s.stack) n], rfl,
        by simp [isStart, isEnd], rfl, rfl⟩)))
  | forwardDeclStmt n =>
    exact Or.inr (Or.inr (Or.inr (Or.inr
      ⟨[.forwardDeclEv (pathOf s.stack) n], rfl,
        by simp [isStart, isEnd], rfl, rfl⟩)))
  | templateInstStmt n =>
    exact Or.inr (Or.inr (Or.inr (Or.inr
      ⟨[.templateInstEv (pathOf s.stack) n], rfl,
        by simp [isStart, isEnd], rfl, rfl⟩)))
  | defineDirective c =>
    exact Or.inr (Or.inr (Or.inr (Or.inr
      ⟨[.defineEv (pathOf s.stack) c], rfl,
        by simp [isStart, isEnd], rfl, rfl⟩)))
  | pragmaDirective c =>
    exact Or.inr (Or.inr (Or.inr (Or.inr
      ⟨[.pragmaEv (pathOf s.stack) c], rfl,
        by simp [isStart, isEnd], rfl, rfl⟩)))
  | includeDirective fn =>
    exact Or.inr (Or.inr (Or.inr (Or.inr
      ⟨[.includeEv (pathOf s.stack) fn], rfl,
        by simp [isStart, isEnd], rfl, rfl⟩)))

/-- A cleanly processed prefix composes: the fold continues from its final
state. -/
theorem foldToks_append_ok (l1 l2 : List Tok) (s s1 : PState)
    (h : foldToks s l1 = (s1, none)) :
    foldToks s (l1 ++ l2) = foldToks s1 l2 := by
  induction l1 generalizing s with
  | nil =>
    simp only [foldToks] at h
    cases h
    rfl
  | cons t ts ih =>
    simp only [foldToks] at h ⊢
    cases hstep : step s t with
    | ok s' =>
      rw [hstep] at h
      exact ih s' h
    | error es =>
      rw [hstep] at h
      simp at h

/-- A failing prefix aborts the fold: tokens after it contribute nothing. -/
theorem foldToks_append_err (l1 l2 : List Tok) (s s1 : PState) (e : PError)
    (h : foldToks s l1 = (s1, some e)) :
    foldToks s (l1 ++ l2) = (s1, some e) := by
  induction l1 generalizing s with
  | nil => simp [foldToks] at h
  | cons t ts ih =>
    simp only [foldToks] at h ⊢
    cases hstep : step s t with
    | ok s' =>
      rw [hstep] at h
      exact ih s' h
    | error es =>
      rw [hstep] at h
      rw [h]

/-- The fold preserves the replay invariant: as long as no error occurs, the
trace emitted so far replays to exactly the parser's current stack of open
frames. -/
theorem foldToks_replay (ts : List Tok) (s : PState)
    (h : replay [] s.events = some s.stack)
    (done : (foldToks s ts).2 = none) :
    replay [] (foldToks s ts).1.events = some (foldToks s ts).1.stack := by
  induction ts generalizing s with
  | nil => exact h
  | cons t ts ih =>
    rcases step_spec s t with
      ⟨f, hok, -, -⟩ | ⟨-, herr, -⟩ | ⟨f, rest, es, hstk, hok, hne, -⟩ |
      ⟨herr, -⟩ | ⟨es, hok, hne, -, -⟩
    · have h' : replay [] (s.events ++ [startEv f]) = some (f :: s.stack) := by
        rw [replay_append, h]
        simp [replay, isStart_startEv]
      simp only [foldToks, hok] at done ⊢
      exact ih _ h' done
    · simp only [foldToks, herr] at done
      simp at done
    · have h' : replay [] (s.events ++ (endEv f :: es)) = some rest := by
        rw [replay_append, h, hstk]
        simp [replay, isStart_endEv, isEnd_endEv, replay_neutral es rest hne]
      simp only [foldToks, hok] at done ⊢
      exact ih _ h' done
    · simp only [foldToks, herr] at done
      simp at done
    · have h' : replay [] (s.events ++ es) = some s.stack := by
        rw [replay_append, h]
        exact replay_neutral es s.stack hne
      simp only [foldToks, hok] at done ⊢
      exact ih _ h' done

/-- Replaying a trace balances the per-kind start and end counts against the
open frames before and after. -/
theorem replay_count (k : BlockKind) (es : List Event) :
    ∀ stk stk', replay stk es = some stk' →
      countKind k stk + startCount k es = endCount k es + countKind k stk' := by
  induction es with
  | nil =>
    intro stk stk' h
    simp only [replay] at h
    cases h
    simp [startCount, endCount]
  | cons e es ih =>
    intro stk stk' h
    cases hs : isStart e with
    | some f =>
      rw [replay] at h
      rw [hs] at h
      have := ih (f :: stk) stk' h
      have hend := isEnd_of_isStart hs
      by_cases hk : f.kind = k <;>
        simp [startCount, endCount, countKind, List.filter_cons, hs, hend,
          hk] at this ⊢ <;> omega
    | none =>
      cases he : isEnd e with
      | some f =>
        rw [replay] at h
        rw [hs, he] at h
        cases stk with
        | nil => simp at h
        | cons g rest =>
          by_cases hg : g = f
          · subst hg
            simp only [if_pos rfl] at h
            have := ih rest stk' h
            by_cases hk : g.kind = k <;>
              simp [startCount, endCount, countKind, List.filter_cons, hs,
                he, hk] at this ⊢ <;> omega
          · simp [hg] at h
      | none =>
        rw [replay] at h
        rw [hs, he] at h
        have := ih stk stk' h
        simp only [startCount, endCount, countKind, List.filter_cons, hs,
          he] at this ⊢
        simp at this ⊢
        omega

/-- The fold tracks the brace-depth discipline: a cleanly processed stream
leaves a stack as deep as the depth count. -/
theorem foldToks_depth_ok (ts : List Tok) (s : PState)
    (h : (foldToks s ts).2 = none) :
    depthAux s.stack.length ts = some (foldToks s ts).1.stack.length := by
  induction ts generalizing s with
  | nil => rfl
  | cons t ts ih =>
    rcases step_spec s t with
      ⟨f, hok, -, hop⟩ | ⟨-, herr, -⟩ | ⟨f, rest, es, hstk, hok, -, hcl⟩ |
      ⟨herr, -⟩ | ⟨es, hok, -, hop, hcl⟩
    · simp only [foldToks, hok] at h ⊢
      have := ih _ h
      simp only [depthAux, hop, if_pos]
      simpa using this
    · simp only [foldToks, herr] at h
      simp at h
    · simp only [foldToks, hok] at h ⊢
      have := ih _ h
      simp only [depthAux, isOpenTok_of_isCloseTok hcl, hcl, hstk]
      simpa using this
    · simp only [foldToks, herr] at h
      simp at h
    · simp only [foldToks, hok] at h ⊢
      have := ih _ h
      simp only [depthAux, hop, hcl, if_neg]
      simpa using this

/-- When the fold stops with UnbalancedBlockError, the stream violates the
brace-depth discipline: a closing token arrived with no open block. -/
theorem foldToks_depth_unbalanced (ts : List Tok) (s : PState)
    (h : (foldToks s ts).2 = some PError.unbalancedBlock) :
    depthAux s.stack.length ts = none := by
  induction ts generalizing s with
  | nil => simp [foldToks] at h
  | cons t ts ih =>
    rcases step_spec s t with
      ⟨f, hok, -, hop⟩ | ⟨hstk, herr, hcl⟩ | ⟨f, rest, es, hstk, hok, -, hcl⟩ |
      ⟨herr, hcl⟩ | ⟨es, hok, -, hop, hcl⟩
    · simp only [foldToks, hok] at h
      have := ih _ h
      simp only [depthAux, hop, if_pos]
      simpa using this
    · simp only [depthAux, isOpenTok_of_isCloseTok hcl, hcl, hstk]
      simp
    · simp only [foldToks, hok] at h
      have := ih _ h
      simp only [depthAux, isOpenTok_of_isCloseTok hcl, hcl, hstk]
      simpa using this
    · simp only [foldToks, herr] at h
      simp at h
    · simp only [foldToks, hok] at h
      have := ih _ h
      simp only [depthAux, hop, hcl, if_neg]
      simpa using this

/-- The fold preserves the path invariant on the stack, whatever the stream
and whether or not it fails. -/
theorem foldToks_wf (ts : List Tok) (s : PState) (h : wfStack s.stack) :
    wfStack (foldToks s ts).1.stack := by
  induction ts generalizing s with
  | nil => exact h
  | cons t ts ih =>
    rcases step_spec s t with
      ⟨f, hok, hpath, -⟩ | ⟨-, herr, -⟩ | ⟨f, rest, es, hstk, hok, -, -⟩ |
      ⟨herr, -⟩ | ⟨es, hok, -, -, -⟩
    · simp only [foldToks, hok]
      exact ih _ ⟨hpath, h⟩
    · simp only [foldToks, herr]
      exact h
    · simp only [foldToks, hok]
      refine ih _ ?_
      rw [hstk] at h
      exact h.2
    · simp only [foldToks, herr]
      exact h
    · simp only [foldToks, hok]
      exact ih _ h

/-- C1: for every well-formed input (a parse that completes without error),
the notification trace is well nested: replaying it opens and closes frames
in strict LIFO order, each `*_end` carrying exactly the frame pushed at the
matching `*_start` (the pop happens in the same transition that emits the
end notification, which still carries the frame), every notification emitted
inside a block lying strictly between that block's start and end
notifications; and for every block kind the number of `*_start` calls equals
the number of `*_end` calls. -/
theorem event_protocol_pairing (toks : List Tok)
    (h : (run toks).2 = none) :
    wellNested (run toks).1.events ∧
    ∀ k, startCount k (run toks).1.events = endCount k (run toks).1.events := by
  rcases hf : foldToks initState toks with ⟨s, err⟩
  cases err with
  | some e => simp [run, hf] at h
  | none =>
    have hdone : (foldToks initState toks).2 = none := by rw [hf]
    have hstack : s.stack = [] := by
      simp only [run, hf] at h
      by_cases hne : s.stack.isEmpty
      · exact List.isEmpty_iff.mp hne
      · simp [hne] at h
    have hrun : run toks = (s, none) := by
      simp [run, hf, hstack]
    have hrep := foldToks_replay toks initState rfl hdone
    rw [hf] at hrep
    simp only [hstack] at hrep
    rw [hrun]
    refine ⟨hrep, fun k => ?_⟩
    have := replay_count k s.events [] [] hrep
    simpa [countKind] using this

/-- Witness for C1 at `struct { int x; } a, b;`: the run completes and its
trace is well nested with matching class start/end counts. -/
theorem event_protocol_pairing_witness :
    wellNested (run anonStructExample).1.events ∧
    startCount BlockKind.classKind (run anonStructExample).1.events =
      endCount BlockKind.classKind (run anonStructExample).1.events := by
  have h := event_protocol_pairing anonStructExample (by decide)
  exact ⟨h.1, h.2 BlockKind.classKind⟩

/-- C2: parsing `typedef int T, *PT;` produces exactly two `on_typedef`
notifications, the first for declarator `T` and the second for `*PT`
(left-to-right source order), both carrying the same underlying base type
`int` while each carries its own declarator shape; the parse succeeds. -/
theorem typedef_fan_out :
    (run typedefExample).1.events =
      [Event.typedefEv [] ⟨BaseType.prim "int", ⟨"T", 0⟩⟩,
       Event.typedefEv [] ⟨BaseType.prim "int", ⟨"PT", 1⟩⟩] ∧
    (run typedefExample).2 = none :=
  ⟨rfl, rfl⟩

/-- C3: parsing `struct { int x; } a, b;` produces exactly one
`on_class_start` and one `on_class_end` with exactly one `on_class_field`
for `x` strictly between them, followed after `on_class_end` by exactly two
`on_variable` calls, for `a` then `b` in declared order; the class frame
carries no name. -/
theorem anonymous_type_instances :
    (run anonStructExample).1.events =
      [Event.classStart
         (Frame.classBlock .structKey none [] .publicAcc false),
       Event.classField
         (Frame.classBlock .structKey none [] .publicAcc false)
         ⟨BaseType.prim "int", ⟨"x", 0⟩, .publicAcc⟩,
       Event.classEnd
         (Frame.classBlock .structKey none [] .publicAcc false),
       Event.variableEv [] ⟨BaseType.compound .structKey none, ⟨"a", 0⟩⟩,
       Event.variableEv [] ⟨BaseType.compound .structKey none, ⟨"b", 0⟩⟩] ∧
    (run anonStructExample).2 = none ∧
    (Frame.classBlock ClassKey.structKey none [] Access.publicAcc
      false).ownName = none :=
  ⟨rfl, rfl, rfl⟩

/-- C4: whenever `Foo::bar() { }` is reached outside any class body (no
class frame anywhere on the stack, in particular no open class named `Foo`),
the parser emits exactly one notification for it, an `on_method_impl` —
never an `on_function` — and the parse continues from the state with just
that event appended. -/
theorem out_of_class_method_bias (pre rest : List Tok) (s : PState)
    (h1 : foldToks initState pre = (s, none))
    (h2 : ∀ f ∈ s.stack, f.isClass = false) :
    step s (Tok.fnDecl ["Foo"] "bar") =
      .ok (emit s [Event.methodImplEv (pathOf s.stack) ⟨["Foo"], "bar"⟩]) ∧
    foldToks initState (pre ++ Tok.fnDecl ["Foo"] "bar" :: rest) =
      foldToks
        (emit s [Event.methodImplEv (pathOf s.stack) ⟨["Foo"], "bar"⟩])
        rest := by
  have hstep : step s (Tok.fnDecl ["Foo"] "bar") =
      .ok (emit s [Event.methodImplEv (pathOf s.stack) ⟨["Foo"], "bar"⟩]) := by
    cases hstk : s.stack with
    | nil => simp [step, hstk, emit]
    | cons f r =>
      have hf : f.isClass = false :=
        h2 f (by rw [hstk]; exact List.mem_cons_self f r)
      cases f with
      | classBlock key name p acc inTd => simp [Frame.isClass] at hf
      | emptyBlock p => simp [step, hstk, emit]
      | externLinkage p => simp [step, hstk, emit]
      | namespaceBlock n p => simp [step, hstk, emit]
  refine ⟨hstep, ?_⟩
  rw [foldToks_append_ok pre (Tok.fnDecl ["Foo"] "bar" :: rest) initState s h1]
  simp [foldToks, hstep]

/-- Witness for C4 at top level: `Foo::bar() { }` as the whole input is
emitted as `on_method_impl`. -/
theorem out_of_class_method_bias_witness :
    step initState (Tok.fnDecl ["Foo"] "bar") =
      .ok (emit initState [Event.methodImplEv [] ⟨["Foo"], "bar"⟩]) := by
  have h := out_of_class_method_bias [] [] initState rfl
    (by intro f hf; simp [initState] at hf)
  exact h.1

/-- C5 as frozen is refuted at the input `{` (a single unmatched opening
brace): the parse does fail with UnbalancedBlockError, but the emitted trace
is not limited to notifications of constructs fully closed before the
imbalance is detected — it contains the `on_empty_block_start` notification
of the block that is never closed (no `*_end` notification occurs at all),
because the single-pass protocol emits every `*_start` when the frame is
pushed, before the imbalance can be known. -/
theorem unbalanced_rejection_counterexample :
    (run [Tok.openEmpty]).2 = some PError.unbalancedBlock ∧
    (run [Tok.openEmpty]).1.events =
      [Event.emptyBlockStart (Frame.emptyBlock [])] ∧
    (∀ e ∈ (run [Tok.openEmpty]).1.events, isEnd e = none) := by
  refine ⟨rfl, rfl, ?_⟩
  decide

/-- C5 (amended): for every input with mismatched brace nesting, parsing
fails; unless the failure is the SyntaxError of an unclassifiable
declaration, the error is exactly UnbalancedBlockError — and conversely an
UnbalancedBlockError occurs only on mismatched nesting; any failure aborts
the pass with no partial-result mode: tokens after the failing token are
never processed and the trace at failure is exactly the trace of the cleanly
processed prefix (which may include `*_start` notifications of blocks that
are never closed). -/
theorem unbalanced_rejection (toks : List Tok) :
    (¬ balancedToks toks → (run toks).2 ≠ none) ∧
    ((run toks).2 ≠ some PError.malformedDecl →
      ((run toks).2 = some PError.unbalancedBlock ↔ ¬ balancedToks toks)) ∧
    (∀ pre t rest s e s0, toks = pre ++ t :: rest →
      foldToks initState pre = (s, none) →
      step s t = .error (e, s0) →
      run toks = (s, some e)) := by
  have factA : (run toks).2 = none → balancedToks toks := by
    intro h
    rcases hf : foldToks initState toks with ⟨s, err⟩
    cases err with
    | some e => simp [run, hf] at h
    | none =>
      have hstack : s.stack = [] := by
        simp only [run, hf] at h
        by_cases hne : s.stack.isEmpty
        · exact List.isEmpty_iff.mp hne
        · simp [hne] at h
      have := foldToks_depth_ok toks initState (by rw [hf])
      rw [hf] at this
      simpa [balancedToks, initState, hstack] using this
  have factB : (run toks).2 = some PError.unbalancedBlock →
      ¬ balancedToks toks := by
    intro h
    rcases hf : foldToks initState toks with ⟨s, err⟩
    cases err with
    | some e =>
      have he : e = PError.unbalancedBlock := by
        simp [run, hf] at h
        exact h
      subst he
      have := foldToks_depth_unbalanced toks initState (by rw [hf])
      simp only [initState, List.length_nil] at this
      intro hb
      rw [balancedToks] at hb
      rw [this] at hb
      exact Option.noConfusion hb
    | none =>
      have hstack : ¬ s.stack.isEmpty = true := by
        intro hempty
        simp [run, hf, hempty] at h
      have hlen : s.stack.length ≠ 0 := by
        intro h0
        exact hstack (by simpa [List.isEmpty_iff, List.length_eq_zero] using h0)
      have := foldToks_depth_ok toks initState (by rw [hf])
      rw [hf] at this
      simp only [initState, List.length_nil] at this
      intro hb
      rw [balancedToks] at hb
      rw [this] at hb
      simp only [Option.some.injEq] at hb
      exact hlen hb
  refine ⟨fun hb hnone => hb (factA hnone), fun hm => ⟨factB, ?_⟩, ?_⟩
  · intro hb
    cases herr : (run toks).2 with
    | none => exact absurd (factA herr) hb
    | some e =>
      cases e with
      | malformedDecl => exact absurd herr hm
      | unbalancedBlock => rfl
  · intro pre t rest s e s0 htoks h1 hstep
    subst htoks
    have hfold : foldToks initState (pre ++ t :: rest) = (s, some e) := by
      rw [foldToks_append_ok pre (t :: rest) initState s h1]
      simp [foldToks, hstep]
    simp [run, hfold]

/-- Witness for C5 at the concrete unbalanced input `{`: the amended theorem
yields the UnbalancedBlockError verdict there. -/
theorem unbalanced_rejection_witness :
    (run [Tok.openEmpty]).2 = some PError.unbalancedBlock :=
  ((unbalanced_rejection [Tok.openEmpty]).2.1 (by decide)).mpr (by decide)

/-- C6: after processing any token stream (hence in every reachable parser
state — every prefix of an input is itself a stream), each frame's qualified
name path is its parent frame's path extended by its own name component
(empty for anonymous/unnamed constructs); and concretely, parsing
`namespace A { namespace B { void f(); } }` emits the `on_function`
notification for `f` with qualified path `["A", "B"]`. -/
theorem qualified_path_invariant :
    (∀ toks : List Tok, wfStack (foldToks initState toks).1.stack) ∧
    (run nestedNamespaceExample).1.events =
      [Event.namespaceStart (Frame.namespaceBlock "A" ["A"]),
       Event.namespaceStart (Frame.namespaceBlock "B" ["A", "B"]),
       Event.functionEv ["A", "B"] ⟨"f"⟩,
       Event.namespaceEnd (Frame.namespaceBlock "B" ["A", "B"]),
       Event.namespaceEnd (Frame.namespaceBlock "A" ["A"])] ∧
    (run nestedNamespaceExample).2 = none :=
  ⟨fun toks => foldToks_wf toks initState trivial, rfl, rfl⟩

/-- C7: a bare `{ }` holding no declarations, wherever it occurs, produces
exactly one `on_empty_block_start` immediately followed by exactly one
`on_empty_block_end` — zero notifications in between — and leaves the stack
as it was; concretely, `{ }` alone yields exactly those two notifications. -/
theorem empty_block_isolation :
    (∀ (s : PState) (rest : List Tok),
      foldToks s (Tok.openEmpty :: Tok.closeBlock [] :: rest) =
        foldToks
          ⟨s.stack,
           s.events ++
             [Event.emptyBlockStart (Frame.emptyBlock (pathOf s.stack)),
              Event.emptyBlockEnd (Frame.emptyBlock (pathOf s.stack))]⟩
          rest) ∧
    (run [Tok.openEmpty, Tok.closeBlock []]).1.events =
      [Event.emptyBlockStart (Frame.emptyBlock []),
       Event.emptyBlockEnd (Frame.emptyBlock [])] ∧
    (run [Tok.openEmpty, Tok.closeBlock []]).2 = none := by
  refine ⟨fun s rest => ?_, rfl, rfl⟩
  simp [foldToks, step, pushFrame, startEv, endEv, emit]

/-- C8: `extern "C" {` pushes an Extern frame carrying its own
`on_extern_block_start` notification; the frame's name component is empty
and its path equals the enclosing path, so the qualified name path seen by
every declaration inside the extern block is unchanged from outside;
concretely, in `namespace A { extern "C" { void f(); } }` the extern block
gets its own start/end pair and `f` is emitted with path `["A"]`. -/
theorem extern_block_transparency :
    (∀ s : PState,
      step s Tok.openExternC =
        .ok ⟨Frame.externLinkage (pathOf s.stack) :: s.stack,
             s.events ++
               [Event.externBlockStart
                 (Frame.externLinkage (pathOf s.stack))]⟩) ∧
    (∀ p : List String, (Frame.externLinkage p).ownName = none) ∧
    (∀ s : PState,
      pathOf (Frame.externLinkage (pathOf s.stack) :: s.stack) =
        pathOf s.stack) ∧
    (run externExample).1.events =
      [Event.namespaceStart (Frame.namespaceBlock "A" ["A"]),
       Event.externBlockStart (Frame.externLinkage ["A"]),
       Event.functionEv ["A"] ⟨"f"⟩,
       Event.externBlockEnd (Frame.externLinkage ["A"]),
       Event.namespaceEnd (Frame.namespaceBlock "A" ["A"])] ∧
    (run externExample).2 = none :=
  ⟨fun _ => rfl, fun _ => rfl, fun _ => rfl, rfl, rfl⟩

/-- C9: each of the four namespace-alias/using callbacks receives exactly
the alias/using value object of the recognized syntax as its payload:
`on_namespace_alias` the NamespaceAlias, `on_using_namespace` the namespace
name path, `on_using_alias` the UsingAlias and `on_using_declaration` the
UsingDecl, each emitted once, with the current state. -/
theorem using_alias_payloads :
    (∀ (s : PState) (a : NamespaceAlias),
      step s (Tok.namespaceAliasStmt a) =
        .ok (emit s [Event.namespaceAliasEv (pathOf s.stack) a])) ∧
    (∀ (s : PState) (ns : List String),
      step s (Tok.usingNamespaceStmt ns) =
        .ok (emit s [Event.usingNamespaceEv (pathOf s.stack) ns])) ∧
    (∀ (s : PState) (u : UsingAlias),
      step s (Tok.usingAliasStmt u) =
        .ok (emit s [Event.usingAliasEv (pathOf s.stack) u])) ∧
    (∀ (s : PState) (u : UsingDecl),
      step s (Tok.usingDeclStmt u) =
        .ok (emit s [Event.usingDeclarationEv (pathOf s.stack) u])) :=
  ⟨fun _ _ => rfl, fun _ _ => rfl, fun _ _ => rfl, fun _ _ => rfl⟩

/-- C10: for a compound type declared inside a typedef, the
`on_class_start`/`on_class_end` pair is emitted before any `on_typedef` of
the statement, and every subsequent `on_typedef` carries the compound type
object as the typedef's underlying type — in general for any class key,
name, declarator list and continuation, and concretely for
`typedef struct { } X;`. -/
theorem typedef_compound_ordering :
    (∀ (s : PState) (key : ClassKey) (nm : Option String)
      (ds : List Declarator) (rest : List Tok),
      foldToks s (Tok.openClass key nm true :: Tok.closeBlock ds :: rest) =
        foldToks
          ⟨s.stack,
           s.events ++
             (Event.classStart
                (Frame.classBlock key nm (pathOf s.stack ++ nm.toList)
                  (defaultAccess key) true) ::
              Event.classEnd
                (Frame.classBlock key nm (pathOf s.stack ++ nm.toList)
                  (defaultAccess key) true) ::
              ds.map fun d =>
                Event.typedefEv (pathOf s.stack)
                  ⟨BaseType.compound key nm, d⟩)⟩
          rest) ∧
    (run typedefStructExample).1.events =
      [Event.classStart
         (Frame.classBlock .structKey none [] .publicAcc true),
       Event.classEnd
         (Frame.classBlock .structKey none [] .publicAcc true),
       Event.typedefEv [] ⟨BaseType.compound .structKey none, ⟨"X", 0⟩⟩] ∧
    (run typedefStructExample).2 = none := by
  refine ⟨fun s key nm ds rest => ?_, rfl, rfl⟩
  simp [foldToks, step, pushFrame, startEv, endEv, trailingEvents]

end CxxHeaderParser
